import Mathlib

/-!
# Verification of the HMAC authentication layer and TTL cache

Shallow embedding of the request-validation / authentication core of the
`moen-test-dev` webhook backend:

* `src/services/hmacService.ts` — timestamp-signature HMAC scheme;
* `src/services/cacheService.ts` — generic in-memory TTL cache;
* `src/middlewares/hmacMiddleware.ts` — authentication middleware;
* `src/utils/verifySignature.ts` — raw-body webhook signature check.

Machine words are modelled as `Nat` reduced modulo `2 ^ 32` where the source
relies on 32-bit wrap-around; byte strings are `List Nat` with every element
below 256.  The HMAC-SHA-256 primitive the source takes from Node's `crypto`
module is implemented here executably (FIPS 180-4 / FIPS 198-1) so that
signatures can be computed inside proofs.
-/

namespace Moen

/-! ## Bytes, hex, UTF-8 -/

/-- Lowercase hex digit for a value below 16 (mirrors Node `digest('hex')`). -/
def hexDigit (n : Nat) : Char :=
  if n < 10 then Char.ofNat (48 + n) else Char.ofNat (87 + n)

/-- Lowercase hex rendering of a byte list, two digits per byte. -/
def bytesToHex (bs : List Nat) : String :=
  ⟨bs.foldr (fun b acc => hexDigit (b / 16 % 16) :: hexDigit (b % 16) :: acc) []⟩

/-- Value of one hex digit (either case); 0 for non-hex input, which the
source never feeds it because of the `^[a-fA-F0-9]{64}$` guard. -/
def hexVal (c : Char) : Nat :=
  if 48 ≤ c.toNat ∧ c.toNat ≤ 57 then c.toNat - 48
  else if 97 ≤ c.toNat ∧ c.toNat ≤ 102 then c.toNat - 87
  else if 65 ≤ c.toNat ∧ c.toNat ≤ 70 then c.toNat - 55
  else 0

/-- Decode a hex string into bytes, mirroring `Buffer.from(s, 'hex')` on the
well-formed strings the source passes (even length, hex charset). -/
def hexToBytes : List Char → List Nat
  | c1 :: c2 :: rest => (hexVal c1 * 16 + hexVal c2) :: hexToBytes rest
  | _ => []

/-- Is the character a decimal digit? -/
def isDigitChar (c : Char) : Bool := 48 ≤ c.toNat ∧ c.toNat ≤ 57

/-- Is the character a hex digit (`[a-fA-F0-9]`)? -/
def isHexChar (c : Char) : Bool :=
  isDigitChar c ∨ (97 ≤ c.toNat ∧ c.toNat ≤ 102) ∨ (65 ≤ c.toNat ∧ c.toNat ≤ 70)

/-- The `/^[a-fA-F0-9]{64}$/` test applied to the signature headers. -/
def isHex64 (s : String) : Bool :=
  s.data.length = 64 ∧ s.data.all isHexChar

/-- UTF-8 encoding of one scalar value, as `Buffer.from(·, 'utf8')` uses. -/
def utf8Char (c : Char) : List Nat :=
  let n := c.toNat
  if n < 128 then [n]
  else if n < 2048 then [192 + n / 64, 128 + n % 64]
  else if n < 65536 then [224 + n / 4096, 128 + n / 64 % 64, 128 + n % 64]
  else [240 + n / 262144, 128 + n / 4096 % 64, 128 + n / 64 % 64, 128 + n % 64]

/-- UTF-8 bytes of a string (`Buffer.from(s, 'utf8')`). -/
def utf8Bytes (s : String) : List Nat := s.data.flatMap utf8Char

/-! ## SHA-256 (FIPS 180-4), executable over `Nat` bytes -/

/-- 32-bit truncation. -/
def w32 (n : Nat) : Nat := n % 4294967296

/-- Right-rotation of a 32-bit word by `r` positions. -/
def rotr32 (r x : Nat) : Nat := w32 (x >>> r ||| x <<< (32 - r))

/-- Function `Ch(x,y,z)`. -/
def shaCh (x y z : Nat) : Nat := (x &&& y) ^^^ ((x ^^^ 4294967295) &&& z)

/-- Function `Maj(x,y,z)`. -/
def shaMaj (x y z : Nat) : Nat := (x &&& y) ^^^ (x &&& z) ^^^ (y &&& z)

/-- Big sigma-0. -/
def shaS0 (x : Nat) : Nat := rotr32 2 x ^^^ rotr32 13 x ^^^ rotr32 22 x

/-- Big sigma-1. -/
def shaS1 (x : Nat) : Nat := rotr32 6 x ^^^ rotr32 11 x ^^^ rotr32 25 x

/-- Small sigma-0. -/
def shaG0 (x : Nat) : Nat := rotr32 7 x ^^^ rotr32 18 x ^^^ (x >>> 3)

/-- Small sigma-1. -/
def shaG1 (x : Nat) : Nat := rotr32 17 x ^^^ rotr32 19 x ^^^ (x >>> 10)

/-- The 64 SHA-256 round constants, in decimal. -/
def shaK : List Nat :=
  [1116352408, 1899447441, 3049323471, 3921009573,
   961987163, 1508970993, 2453635748, 2870763221,
   3624381080, 310598401, 607225278, 1426881987,
   1925078388, 2162078206, 2614888103, 3248222580,
   3835390401, 4022224774, 264347078, 604807628,
   770255983, 1249150122, 1555081692, 1996064986,
   2554220882, 2821834349, 2952996808, 3210313671,
   3336571891, 3584528711, 113926993, 338241895,
   666307205, 773529912, 1294757372, 1396182291,
   1695183700, 1986661051, 2177026350, 2456956037,
   2730485921, 2820302411, 3259730800, 3345764771,
   3516065817, 3600352804, 4094571909, 275423344,
   430227734, 506948616, 659060556, 883997877,
   958139571, 1322822218, 1537002063, 1747873779,
   1955562222, 2024104815, 2227730452, 2361852424,
   2428436474, 2756734187, 3204031479, 3329325298]

/-- The eight-word hash state. -/
structure ShaState where
  a : Nat
  b : Nat
  c : Nat
  d : Nat
  e : Nat
  f : Nat
  g : Nat
  h : Nat
deriving DecidableEq, Repr

/-- Initial hash value, in decimal. -/
def shaInit : ShaState :=
  ⟨1779033703, 3144134277, 1013904242, 2773480762,
   1359893119, 2600822924, 528734635, 1541459225⟩

/-- One round of the compression function, consuming the pair of a round
constant and a schedule word. -/
def shaRound (s : ShaState) (kw : Nat × Nat) : ShaState :=
  let t1 := w32 (s.h + shaS1 s.e + shaCh s.e s.f s.g + kw.1 + kw.2)
  let t2 := w32 (shaS0 s.a + shaMaj s.a s.b s.c)
  ⟨w32 (t1 + t2), s.a, s.b, s.c, w32 (s.d + t1), s.e, s.f, s.g⟩

/-- Assemble 32-bit big-endian words from bytes. -/
def wordsOfBytes : List Nat → List Nat
  | b0 :: b1 :: b2 :: b3 :: rest =>
      (b0 * 16777216 + b1 * 65536 + b2 * 256 + b3) :: wordsOfBytes rest
  | _ => []

/-- Extend the 16 block words to 64 schedule words; the accumulator holds the
schedule so far in reverse (most recent first). -/
def shaExtend : Nat → List Nat → List Nat
  | 0, wrev => wrev
  | n + 1, wrev =>
      shaExtend n
        (w32 (shaG1 (wrev.getD 1 0) + wrev.getD 6 0 +
              shaG0 (wrev.getD 14 0) + wrev.getD 15 0) :: wrev)

/-- Full 64-word message schedule of one 16-word block. -/
def shaSchedule (block : List Nat) : List Nat :=
  (shaExtend 48 block.reverse).reverse

/-- Compress one 64-byte block into the hash state. -/
def shaCompress (s : ShaState) (block : List Nat) : ShaState :=
  let r := (shaK.zip (shaSchedule (wordsOfBytes block))).foldl shaRound s
  ⟨w32 (s.a + r.a), w32 (s.b + r.b), w32 (s.c + r.c), w32 (s.d + r.d),
   w32 (s.e + r.e), w32 (s.f + r.f), w32 (s.g + r.g), w32 (s.h + r.h)⟩

/-- Message padding: `0x80`, zeros to 56 mod 64, then the 64-bit bit length. -/
def shaPad (msg : List Nat) : List Nat :=
  let len := msg.length
  let zeros := (119 - len % 64) % 64
  let bitLen := len * 8
  msg ++ 128 :: List.replicate zeros 0 ++
    [bitLen >>> 56 % 256, bitLen >>> 48 % 256, bitLen >>> 40 % 256,
     bitLen >>> 32 % 256, bitLen >>> 24 % 256, bitLen >>> 16 % 256,
     bitLen >>> 8 % 256, bitLen % 256]

/-- Split a padded message into 64-byte blocks (fuel is the block count). -/
def shaBlocksGo : Nat → List Nat → List (List Nat)
  | 0, _ => []
  | n + 1, l => l.take 64 :: shaBlocksGo n (l.drop 64)

/-- The 64-byte blocks of a padded message. -/
def shaBlocks (l : List Nat) : List (List Nat) := shaBlocksGo (l.length / 64) l

/-- Big-endian bytes of one 32-bit word. -/
def wordBytes (x : Nat) : List Nat :=
  [x >>> 24 % 256, x >>> 16 % 256, x >>> 8 % 256, x % 256]

/-- Digest serialization: 32 bytes, big-endian word order. -/
def shaStateBytes (s : ShaState) : List Nat :=
  wordBytes s.a ++ wordBytes s.b ++ wordBytes s.c ++ wordBytes s.d ++
  wordBytes s.e ++ wordBytes s.f ++ wordBytes s.g ++ wordBytes s.h

/-- SHA-256 of a byte list, as 32 digest bytes. -/
def sha256 (msg : List Nat) : List Nat :=
  shaStateBytes ((shaBlocks (shaPad msg)).foldl shaCompress shaInit)

/-! ## HMAC-SHA-256 (FIPS 198-1) -/

/-- HMAC-SHA-256 digest bytes of `msg` under `key`. -/
def hmacSha256 (key msg : List Nat) : List Nat :=
  let k0 := if 64 < key.length then sha256 key else key
  let kp := k0 ++ List.replicate (64 - k0.length) 0
  sha256 ((kp.map (· ^^^ 92)) ++ sha256 ((kp.map (· ^^^ 54)) ++ msg))

/-- Node `crypto.createHmac('sha256', secret).update(data, 'utf8').digest('hex')`:
the hex HMAC of a string message under a string key. -/
def hmacHex (secret data : String) : String :=
  bytesToHex (hmacSha256 (utf8Bytes secret) (utf8Bytes data))

/-- Node `crypto.timingSafeEqual`: throws when the byte lengths differ, otherwise
reports byte equality (the constant-time aspect is not observable here). -/
def timingSafeEqual (a b : List Nat) : Except String Bool :=
  if a.length = b.length then .ok (decide (a = b))
  else .error "Input buffers must have the same byte length"

/-! ## `parseInt(s, 10)` (hmacService.ts `validateTimestamp`) -/

/-- ECMAScript `StrWhiteSpaceChar` members that matter here: space, tab, LF,
VT, FF, CR. -/
def isJsSpace (c : Char) : Bool :=
  c.toNat = 32 ∨ c.toNat = 9 ∨ c.toNat = 10 ∨ c.toNat = 11 ∨ c.toNat = 12 ∨ c.toNat = 13

/-- Numeric value of a list of decimal digit characters. -/
def digitsVal (ds : List Char) : Nat :=
  ds.foldl (fun a c => a * 10 + (c.toNat - 48)) 0

/-- The longest decimal-digit prefix, or `none` when there is none
(`parseInt` yields `NaN` then). -/
def digitPrefixVal (l : List Char) : Option Nat :=
  let ds := l.takeWhile isDigitChar
  if ds.isEmpty then none else some (digitsVal ds)

/-- JavaScript `parseInt(s, 10)`: skip leading whitespace, take an optional
sign, then the longest digit prefix; `NaN` (here `none`) when no digit
follows.  The source only feeds it timestamps of at most 13 digits, where
the IEEE-754 result is exact, so `Int` is faithful. -/
def parseIntJs (s : String) : Option Int :=
  match s.data.dropWhile isJsSpace with
  | [] => none
  | c :: rest =>
      if c = '-' then (digitPrefixVal rest).map (fun n => -(n : Int))
      else if c = '+' then (digitPrefixVal rest).map (fun n => (n : Int))
      else (digitPrefixVal (c :: rest)).map (fun n => (n : Int))

/-! ## HmacService (src/services/hmacService.ts)

The checked-in source hardcodes the Key Vault fetch result
(`this.cachedSecret = '6413…ac60'`, line 51, with the
`getSecretFromKeyVault('hmac-secret-key')` call commented out); the
repository's secret-toggle script restores the fallible Key Vault call.
The fetch is therefore a parameter `fetch : Nat → Option String`
(attempt number ↦ fetched value, `none` when the await rejects); the
checked-in behaviour is `fetchCheckedIn`. -/

/-- The secret the checked-in `getSecret` assigns on every attempt. -/
def hardcodedHmacSecret : String :=
  "6413d2d9adfd7be563e664906534b051e4cf257ea7b5e653c68ef5028298ac60"

/-- The checked-in fetch: every attempt yields the hardcoded secret. -/
def fetchCheckedIn : Nat → Option String := fun _ => some hardcodedHmacSecret

/-- The `HmacConfig` with the documented defaults. -/
structure HmacConfig where
  cacheTimeoutMs : Int := 60000
  signatureTimeoutMs : Int := 300000
  maxRetries : Nat := 3
  retryDelayMs : Nat := 1000
deriving Repr

/-- The mutable fields of the `HmacService` singleton. -/
structure SecretState where
  cachedSecret : Option String := none
  cacheTimestamp : Int := 0
  retryCount : Nat := 0
deriving DecidableEq, Repr

/-- Result of a `getSecret` call, instrumented with the number of secret-store
fetch attempts actually performed (for the short-circuit claims). -/
structure SecretFetchResult where
  outcome : Except String String
  state : SecretState
  fetchCalls : Nat
deriving Repr

/-- The retry loop of `getSecret` (attempts `1..maxRetries`); `fuel` is the
number of attempts remaining. -/
def getSecretLoop (cfg : HmacConfig) (fetch : Nat → Option String) (now : Int) :
    Nat → SecretState → Nat → SecretFetchResult
  | 0, st, calls =>
      ⟨.error "Unable to retrieve HMAC secret after maximum retries", st, calls⟩
  | fuel + 1, st, calls =>
      let attempt := cfg.maxRetries - fuel
      match fetch attempt with
      | some s =>
          if s.length < 32 then
            -- the bad value was assigned before the length check threw
            let st := { st with cachedSecret := some s, retryCount := st.retryCount + 1 }
            if fuel = 0 then
              ⟨.error "Unable to retrieve HMAC secret after maximum retries", st, calls + 1⟩
            else getSecretLoop cfg fetch now fuel st (calls + 1)
          else
            ⟨.ok s,
             { st with cachedSecret := some s, cacheTimestamp := now, retryCount := 0 },
             calls + 1⟩
      | none =>
          let st := { st with retryCount := st.retryCount + 1 }
          if fuel = 0 then
            ⟨.error "Unable to retrieve HMAC secret after maximum retries", st, calls + 1⟩
          else getSecretLoop cfg fetch now fuel st (calls + 1)

/-- Method `getSecret`: serve the cached secret while fresh, otherwise run the retry
loop.  With `maxRetries = 0` the source's loop body never runs and the stale
cached value (JS `null` coerced) leaks through, mirrored by `getD ""`. -/
def getSecret (cfg : HmacConfig) (fetch : Nat → Option String) (now : Int)
    (st : SecretState) : SecretFetchResult :=
  match st.cachedSecret with
  | some s =>
      if s ≠ "" ∧ ¬ (now - st.cacheTimestamp > cfg.cacheTimeoutMs) then ⟨.ok s, st, 0⟩
      else if cfg.maxRetries = 0 then ⟨.ok s, st, 0⟩
      else getSecretLoop cfg fetch now cfg.maxRetries st 0
  | none =>
      if cfg.maxRetries = 0 then ⟨.ok "", st, 0⟩
      else getSecretLoop cfg fetch now cfg.maxRetries st 0

/-- Method `generateHmac`: throws when either argument is falsy, otherwise the hex
HMAC-SHA-256 of `data` under `secret`. -/
def generateHmac (secret data : String) : Except String String :=
  if secret = "" ∨ data = "" then
    .error "Secret and data are required for HMAC generation"
  else .ok (hmacHex secret data)

/-- Method `validateTimestamp`: parse with `parseInt`, reject non-positive or
unparseable values, clock-skew beyond the window, and an absolute
difference beyond the window. -/
def validateTimestamp (cfg : HmacConfig) (now : Int) (timestamp : String) : Bool :=
  match parseIntJs timestamp with
  | none => false
  | some t =>
      if t ≤ 0 then false
      else if t > now + cfg.signatureTimeoutMs then false
      else if |now - t| > cfg.signatureTimeoutMs then false
      else true

/-- A `VerificationResult` as produced by `verifySignature`. -/
structure VerificationResult where
  isValid : Bool
  reason : Option String := none
  timestamp : Option Int := none
deriving DecidableEq, Repr

/-- The `verifySignature` outcome instrumented with the updated secret state,
the number of secret-store fetches, whether the byte comparison ran, and
the recomputed signature when one was computed. -/
structure VerifyTrace where
  result : VerificationResult
  state : SecretState
  fetchCalls : Nat
  compared : Bool
  expectedSig : Option String
deriving Repr

/-- Method `verifySignature(timestamp, receivedSignature)`: timestamp window check,
signature format check, secret fetch, HMAC recomputation over the verbatim
timestamp string, constant-time comparison.  Internal throws are caught and
become `verification_error`. -/
def verifySignature (cfg : HmacConfig) (fetch : Nat → Option String)
    (st : SecretState) (now : Int) (timestamp receivedSignature : String) :
    VerifyTrace :=
  if ¬ validateTimestamp cfg now timestamp then
    ⟨⟨false, some "timestamp_expired", none⟩, st, 0, false, none⟩
  else if receivedSignature = "" ∨ ¬ isHex64 receivedSignature then
    ⟨⟨false, some "signature_mismatch", none⟩, st, 0, false, none⟩
  else
    let fr := getSecret cfg fetch now st
    match fr.outcome with
    | .error _ =>
        ⟨⟨false, some "verification_error", none⟩, fr.state, fr.fetchCalls, false, none⟩
    | .ok secret =>
        match generateHmac secret timestamp with
        | .error _ =>
            ⟨⟨false, some "verification_error", none⟩, fr.state, fr.fetchCalls, false, none⟩
        | .ok expected =>
            match timingSafeEqual (hexToBytes receivedSignature.data)
                (hexToBytes expected.data) with
            | .error _ =>
                ⟨⟨false, some "verification_error", none⟩, fr.state, fr.fetchCalls,
                 false, some expected⟩
            | .ok b =>
                ⟨⟨b, if b then none else some "signature_mismatch", parseIntJs timestamp⟩,
                 fr.state, fr.fetchCalls, true, some expected⟩

/-! ## CacheService (src/services/cacheService.ts)

The `Map<string, CacheEntry>` is a `List (String × CacheEntry α)` in
insertion order: `Map.set` overwrites in place (keeping the original
position) or appends, `Map.delete` removes, iteration follows the list.
The `serialize` deep clone (`JSON.parse(JSON.stringify(v))`) is the
identity on the JSON-representable values cached here. -/

/-- One cache entry: value, creation time, TTL in milliseconds. -/
structure CacheEntry (α : Type) where
  value : α
  timestamp : Int
  ttl : Int
deriving DecidableEq, Repr

/-- The cache map plus hit/miss counters. -/
structure CacheState (α : Type) where
  entries : List (String × CacheEntry α) := []
  hits : Nat := 0
  misses : Nat := 0
deriving DecidableEq, Repr

/-- Operation `Map.get`. -/
def mapGet {β : Type} (m : List (String × β)) (k : String) : Option β :=
  (m.find? (fun p => p.1 = k)).map (·.2)

/-- Operation `Map.set`: overwrite in place, or append. -/
def mapSet {β : Type} (m : List (String × β)) (k : String) (v : β) :
    List (String × β) :=
  if (m.find? (fun p => p.1 = k)).isSome then
    m.map (fun p => if p.1 = k then (k, v) else p)
  else m ++ [(k, v)]

/-- Operation `Map.delete` (on a map whose keys are distinct). -/
def mapDelete {β : Type} (m : List (String × β)) (k : String) :
    List (String × β) :=
  m.filter (fun p => ¬ p.1 = k)

/-- Constant `maxSize = 10000`. -/
def cacheMaxSize : Nat := 10000

/-- Value `Math.floor(maxSize * 0.1)`: the batch size of a capacity eviction. -/
def evictCount : Nat := cacheMaxSize / 10

/-- Options object of `set`/`get`: TTL and namespace prefix. -/
structure CacheOptions where
  ttl : Option Int := none
  pfx : Option String := none
deriving Repr

/-- Constant `defaultTtl = config.performance.cacheTtl * 1000` (300 s default). -/
def cacheDefaultTtl : Int := 300000

/-- Expression `` prefix ? `${prefix}:${key}` : key `` — an empty prefix is falsy. -/
def cacheFullKey (pfx : Option String) (key : String) : String :=
  match pfx with
  | some p => if p ≠ "" then p ++ ":" ++ key else key
  | none => key

/-- Method `evictIfNeeded`: at or above capacity, sort a snapshot by creation time
(ascending, stable like `Array.prototype.sort`) and delete the first
`evictCount` keys. -/
def evictIfNeeded {α : Type} (m : List (String × CacheEntry α)) :
    List (String × CacheEntry α) :=
  if cacheMaxSize ≤ m.length then
    let sorted := m.mergeSort (fun a b => a.2.timestamp ≤ b.2.timestamp)
    (sorted.take evictCount).foldl (fun acc p => mapDelete acc p.1) m
  else m

/-- Method `set(key, value, options)`: evict if needed, then store the value
timestamped now.  The model has no internal failure, so the result is
always `true`. -/
def cacheSet {α : Type} (s : CacheState α) (now : Int) (key : String) (value : α)
    (opts : CacheOptions) : Bool × CacheState α :=
  let ttl := opts.ttl.getD cacheDefaultTtl
  let fk := cacheFullKey opts.pfx key
  (true, { s with entries := mapSet (evictIfNeeded s.entries) fk ⟨value, now, ttl⟩ })

/-- Method `get(key, options)`: miss on absence; a stale entry (`ttl > 0` and age
strictly above it) is deleted on sight and counts as a miss; otherwise a
hit returning the value. -/
def cacheGet {α : Type} (s : CacheState α) (now : Int) (key : String)
    (opts : CacheOptions) : Option α × CacheState α :=
  let fk := cacheFullKey opts.pfx key
  match mapGet s.entries fk with
  | none => (none, { s with misses := s.misses + 1 })
  | some e =>
      if e.ttl > 0 ∧ now - e.timestamp > e.ttl then
        (none, { s with entries := mapDelete s.entries fk, misses := s.misses + 1 })
      else (some e.value, { s with hits := s.hits + 1 })

/-- Method `delete(key, prefix)`. -/
def cacheDelete {α : Type} (s : CacheState α) (key : String)
    (pfx : Option String) : Bool × CacheState α :=
  let fk := cacheFullKey pfx key
  ((mapGet s.entries fk).isSome, { s with entries := mapDelete s.entries fk })

/-- Method `exists(key, prefix)`: same freshness check as `get`, without the value. -/
def cacheExists {α : Type} (s : CacheState α) (now : Int) (key : String)
    (pfx : Option String) : Bool × CacheState α :=
  let fk := cacheFullKey pfx key
  match mapGet s.entries fk with
  | none => (false, s)
  | some e =>
      if e.ttl > 0 ∧ now - e.timestamp > e.ttl then
        (false, { s with entries := mapDelete s.entries fk })
      else (true, s)

/-- Method `cleanupExpiredEntries`: the periodic sweep removing every entry with
`ttl > 0` whose age exceeds its TTL. -/
def cleanupExpiredEntries {α : Type} (s : CacheState α) (now : Int) :
    CacheState α :=
  { s with entries :=
      s.entries.filter (fun p => ¬ (p.2.ttl > 0 ∧ now - p.2.timestamp > p.2.ttl)) }

/-! ## HmacValidator middleware (src/middlewares/hmacMiddleware.ts) -/

/-- What the middleware does with the response. -/
inductive MwOutcome
  | next
  | respond (status : Nat) (error : String)
deriving DecidableEq, Repr

/-- Method `generateCacheKey(timestamp, signature)`. -/
def verificationCacheKey (timestamp signature : String) : String :=
  "hmac:verify:" ++ timestamp ++ ":" ++ signature

/-- The options both `checkCache` and `cacheResult` pass:
`{ prefix: 'verification', ttl: 60 }` — note 60, a value `cacheService`
interprets in milliseconds. -/
def verificationCacheOpts : CacheOptions := ⟨some 60, some "verification"⟩

/-- Method `checkCache`. -/
def checkCache (c : CacheState Bool) (now : Int) (ts sig : String) :
    Option Bool × CacheState Bool :=
  cacheGet c now (verificationCacheKey ts sig) verificationCacheOpts

/-- Method `cacheResult`. -/
def cacheResult (c : CacheState Bool) (now : Int) (ts sig : String)
    (isValid : Bool) : CacheState Bool :=
  (cacheSet c now (verificationCacheKey ts sig) isValid verificationCacheOpts).2

/-- The middleware's `errorMessages` table, with its fallback. -/
def hmacErrorMessage (reason : Option String) : String :=
  match reason with
  | some "timestamp_expired" => "HMAC signature has expired"
  | some "signature_mismatch" => "Invalid HMAC signature"
  | some "verification_error" => "HMAC verification failed"
  | _ => "HMAC verification failed"

/-- Result of one middleware invocation. -/
structure MwResult where
  outcome : MwOutcome
  cache : CacheState Bool
  secret : SecretState
  fetchCalls : Nat
deriving Repr

/-- Middleware `HmacValidator.verify`: header presence check, verification cache lookup,
verifier invocation, result caching, response selection. -/
def hmacVerifyMw (cfg : HmacConfig) (fetch : Nat → Option String) (now : Int)
    (c : CacheState Bool) (st : SecretState)
    (timestamp signature : Option String) : MwResult :=
  match timestamp, signature with
  | some ts, some sig =>
      if ts = "" ∨ sig = "" then
        ⟨.respond 400 "Missing required HMAC headers", c, st, 0⟩
      else
        match checkCache c now ts sig with
        | (some cached, c1) =>
            if cached then ⟨.next, c1, st, 0⟩
            else ⟨.respond 401 "Invalid HMAC signature", c1, st, 0⟩
        | (none, c1) =>
            let tr := verifySignature cfg fetch st now ts sig
            let c2 := cacheResult c1 now ts sig tr.result.isValid
            if tr.result.isValid then ⟨.next, c2, tr.state, tr.fetchCalls⟩
            else ⟨.respond 401 (hmacErrorMessage tr.result.reason), c2, tr.state,
                  tr.fetchCalls⟩
  | _, _ => ⟨.respond 400 "Missing required HMAC headers", c, st, 0⟩

/-! ## Webhook raw-body verification (src/utils/verifySignature.ts) -/

/-- The parts of a webhook request the verifier inspects.  `signature` is
the `x-pageproof-signature` header when it arrived as a single string (a
missing or array-valued header fails the `typeof` check and is `none`);
`rawBody` is what `rawBodySaver` captured (set only for nonempty bodies);
`bodyStringified` is `JSON.stringify(req.body)` of the parsed body when
`req.body` is truthy. -/
structure PageProofRequest where
  signature : Option String := none
  rawBody : Option String := none
  bodyStringified : Option String := none
deriving Repr

/-- Method `VerifySignature.isRequestSignedByPageProof`, with the initialized
`WEBHOOK_SIGNING_SECRET` as first argument (`none` when initialization
never succeeded).  When `req.rawBody` is falsy the source falls back to
`Buffer.from(JSON.stringify(req.body || {}))`. -/
def isRequestSignedByPageProof (secret : Option String)
    (req : PageProofRequest) : Bool :=
  match secret with
  | none => false
  | some sec =>
      if sec = "" then false
      else
        match req.signature with
        | none => false
        | some sig =>
            if ¬ isHex64 sig then false
            else
              let rawBody :=
                match req.rawBody with
                | some rb =>
                    if rb ≠ "" then utf8Bytes rb
                    else utf8Bytes (req.bodyStringified.getD "\x7b\x7d")
                | none => utf8Bytes (req.bodyStringified.getD "\x7b\x7d")
              if rawBody.length = 0 then false
              else
                match timingSafeEqual (hexToBytes sig.data)
                    (hmacSha256 (utf8Bytes sec) rawBody) with
                | .ok b => b
                | .error _ => false

/-! ## Helper lemmas: hex output format, parsing, timestamps -/

/-- The default `HmacConfig` (all environment overrides absent). -/
def defaultHmacConfig : HmacConfig := {}

theorem bytesToHex_data (bs : List Nat) :
    (bytesToHex bs).data =
      bs.foldr (fun b acc => hexDigit (b / 16 % 16) :: hexDigit (b % 16) :: acc) [] := rfl

theorem bytesToHex_length (bs : List Nat) :
    (bytesToHex bs).data.length = 2 * bs.length := by
  rw [bytesToHex_data]
  induction bs with
  | nil => rfl
  | cons b rest ih => simp [List.foldr_cons, ih]; omega

theorem isHexChar_hexDigit {n : Nat} (h : n < 16) : isHexChar (hexDigit n) = true := by
  interval_cases n <;> decide

theorem mem_bytesToHex_hex (bs : List Nat) :
    ∀ c ∈ (bytesToHex bs).data, isHexChar c = true := by
  rw [bytesToHex_data]
  induction bs with
  | nil => simp
  | cons b rest ih =>
    simp only [List.foldr_cons, List.mem_cons]
    rintro c (rfl | rfl | hc)
    · exact isHexChar_hexDigit (Nat.mod_lt _ (by omega))
    · exact isHexChar_hexDigit (Nat.mod_lt _ (by omega))
    · exact ih c hc

theorem sha256_length (m : List Nat) : (sha256 m).length = 32 := by
  simp [sha256, shaStateBytes, wordBytes]

theorem hmacSha256_length (k m : List Nat) : (hmacSha256 k m).length = 32 := by
  simp [hmacSha256, sha256_length]

theorem isHex64_of_length32 {bs : List Nat} (h : bs.length = 32) :
    isHex64 (bytesToHex bs) = true := by
  simp only [isHex64, List.all_eq_true, decide_eq_true_eq, Bool.decide_and]
  refine ?_
  have hl : (bytesToHex bs).data.length = 64 := by rw [bytesToHex_length, h]
  simp [hl]
  exact mem_bytesToHex_hex bs

theorem isHex64_hmacHex (s d : String) : isHex64 (hmacHex s d) = true :=
  isHex64_of_length32 (hmacSha256_length _ _)

theorem hmacHex_ne_empty (s d : String) : hmacHex s d ≠ "" := by
  intro h
  have := bytesToHex_length (hmacSha256 (utf8Bytes s) (utf8Bytes d))
  rw [hmacSha256_length] at this
  rw [show bytesToHex (hmacSha256 (utf8Bytes s) (utf8Bytes d)) = hmacHex s d from rfl, h] at this
  simp at this

theorem validateTimestamp_true_iff (cfg : HmacConfig) (now : Int) (ts : String) :
    validateTimestamp cfg now ts = true ↔
      ∃ t, parseIntJs ts = some t ∧ 0 < t ∧ t ≤ now + cfg.signatureTimeoutMs ∧
        |now - t| ≤ cfg.signatureTimeoutMs := by
  unfold validateTimestamp
  cases h : parseIntJs ts with
  | none => simp
  | some t =>
    simp only [h, Option.some.injEq]
    constructor
    · intro hv
      refine ⟨t, rfl, ?_⟩
      by_cases h1 : t ≤ 0
      · simp [h1] at hv
      · by_cases h2 : t > now + cfg.signatureTimeoutMs
        · simp [h1, h2] at hv
        · by_cases h3 : |now - t| > cfg.signatureTimeoutMs
          · simp [h1, h2, h3] at hv
          · omega
    · rintro ⟨t', ht', h1, h2, h3⟩
      cases ht'
      have : ¬ t ≤ 0 := by omega
      have h2' : ¬ t > now + cfg.signatureTimeoutMs := by omega
      have h3' : ¬ |now - t| > cfg.signatureTimeoutMs := by omega
      simp [this, h2', h3']

theorem parseIntJs_ne_empty {ts : String} {t : Int} (h : parseIntJs ts = some t) :
    ts ≠ "" := by
  intro he
  subst he
  simp [parseIntJs, digitPrefixVal] at h

theorem getSecret_default_initial (now : Int) :
    getSecret defaultHmacConfig fetchCheckedIn now {} =
      ⟨.ok hardcodedHmacSecret, ⟨some hardcodedHmacSecret, now, 0⟩, 1⟩ := rfl

theorem verifySignature_roundtrip (now : Int) (ts : String)
    (hv : validateTimestamp defaultHmacConfig now ts = true) :
    verifySignature defaultHmacConfig fetchCheckedIn {} now ts
      (hmacHex hardcodedHmacSecret ts) =
      ⟨⟨true, none, parseIntJs ts⟩, ⟨some hardcodedHmacSecret, now, 0⟩, 1, true,
       some (hmacHex hardcodedHmacSecret ts)⟩ := by
  have hne : ts ≠ "" := by
    rcases (validateTimestamp_true_iff _ _ _).mp hv with ⟨t, hp, _⟩
    exact parseIntJs_ne_empty hp
  have hsec : hardcodedHmacSecret ≠ "" := by decide
  simp [verifySignature, hv, hmacHex_ne_empty, isHex64_hmacHex,
        getSecret_default_initial, generateHmac, hne, hsec, timingSafeEqual]


theorem validateTimestamp_false_of_past (now : Int) (ts : String) (t : Int)
    (hp : parseIntJs ts = some t) (hfar : 300000 < |now - t|) :
    validateTimestamp defaultHmacConfig now ts = false := by
  cases hvb : validateTimestamp defaultHmacConfig now ts
  · rfl
  · exfalso
    rcases (validateTimestamp_true_iff _ _ _).mp hvb with ⟨t', hp', _, _, habs⟩
    rw [hp] at hp'
    cases hp'
    have : defaultHmacConfig.signatureTimeoutMs = 300000 := rfl
    omega

theorem verifySignature_expired (fetch : Nat → Option String) (st : SecretState)
    (now : Int) (ts sig : String)
    (hv : validateTimestamp defaultHmacConfig now ts = false) :
    verifySignature defaultHmacConfig fetch st now ts sig =
      ⟨⟨false, some "timestamp_expired", none⟩, st, 0, false, none⟩ := by
  simp [verifySignature, hv]

/-- C5: with the default 300000 ms window, a timestamp 300001 ms in the past is
rejected with reason `timestamp_expired`; one 299999 ms in the past passes the
timestamp check and is accepted when the signature matches; a timestamp more
than the window into the future is likewise rejected. -/
theorem c5_expiry_boundary (now : Int) (ts1 ts2 ts3 : String) (d : Int)
    (h1 : parseIntJs ts1 = some (now - 300001)) (hpos : 0 < now - 300001)
    (h2 : parseIntJs ts2 = some (now - 299999))
    (h3 : parseIntJs ts3 = some (now + 300000 + d)) (hd : 1 ≤ d) :
    (∀ sig st, verifySignature defaultHmacConfig fetchCheckedIn st now ts1 sig =
        ⟨⟨false, some "timestamp_expired", none⟩, st, 0, false, none⟩)
    ∧ validateTimestamp defaultHmacConfig now ts2 = true
    ∧ (verifySignature defaultHmacConfig fetchCheckedIn {} now ts2
        (hmacHex hardcodedHmacSecret ts2)).result.isValid = true
    ∧ (∀ sig st, verifySignature defaultHmacConfig fetchCheckedIn st now ts3 sig =
        ⟨⟨false, some "timestamp_expired", none⟩, st, 0, false, none⟩) := by
  have htmo : defaultHmacConfig.signatureTimeoutMs = 300000 := rfl
  have hv2 : validateTimestamp defaultHmacConfig now ts2 = true := by
    rw [validateTimestamp_true_iff]
    refine ⟨now - 299999, h2, by omega, by omega, ?_⟩
    rw [htmo, show now - (now - 299999) = 299999 by omega]
    norm_num
  refine ⟨?_, hv2, by rw [verifySignature_roundtrip now ts2 hv2], ?_⟩
  · intro sig st
    refine verifySignature_expired _ _ _ _ _
      (validateTimestamp_false_of_past now ts1 _ h1 ?_)
    rw [show now - (now - 300001) = 300001 by omega]
    norm_num
  · intro sig st
    refine verifySignature_expired _ _ _ _ _ ?_
    cases hvb : validateTimestamp defaultHmacConfig now ts3
    · rfl
    · exfalso
      rcases (validateTimestamp_true_iff _ _ _).mp hvb with ⟨t', hp', _, hfut, _⟩
      rw [h3] at hp'
      cases hp'
      omega

/-- C5 witness at concrete inputs. -/
theorem c5_expiry_boundary_witness :
    (∀ sig st, verifySignature defaultHmacConfig fetchCheckedIn st 1700000000000
        "1699999699999" sig =
        ⟨⟨false, some "timestamp_expired", none⟩, st, 0, false, none⟩)
    ∧ validateTimestamp defaultHmacConfig 1700000000000 "1699999700001" = true
    ∧ (verifySignature defaultHmacConfig fetchCheckedIn {} 1700000000000 "1699999700001"
        (hmacHex hardcodedHmacSecret "1699999700001")).result.isValid = true
    ∧ (∀ sig st, verifySignature defaultHmacConfig fetchCheckedIn st 1700000000000
        "1700000300001" sig =
        ⟨⟨false, some "timestamp_expired", none⟩, st, 0, false, none⟩) :=
  c5_expiry_boundary 1700000000000 "1699999699999" "1699999700001" "1700000300001" 1
    (by decide) (by decide) (by decide) (by decide) (by decide)


/-- C6: a provided signature that is not 64 hex characters is rejected with
`signature_mismatch` before any secret fetch or byte comparison. -/
theorem c6_malformed_signature_short_circuits (cfg : HmacConfig)
    (fetch : Nat → Option String) (st : SecretState) (now : Int) (ts sig : String)
    (hts : validateTimestamp cfg now ts = true) (hsig : isHex64 sig = false) :
    verifySignature cfg fetch st now ts sig =
      ⟨⟨false, some "signature_mismatch", none⟩, st, 0, false, none⟩ := by
  simp [verifySignature, hts, hsig]

/-- C6 witness: a valid in-window timestamp with a 63-character signature. -/
theorem c6_malformed_signature_witness :
    verifySignature defaultHmacConfig fetchCheckedIn {} 1700000000000 "1700000000000"
        "000000000000000000000000000000000000000000000000000000000000000" =
      ⟨⟨false, some "signature_mismatch", none⟩, {}, 0, false, none⟩ :=
  c6_malformed_signature_short_circuits defaultHmacConfig fetchCheckedIn {} 1700000000000
    "1700000000000" _ (by decide) (by decide)

theorem getSecret_fetchFail (now ct : Int) (rc : Nat) :
    getSecret defaultHmacConfig (fun _ => none) now ⟨none, ct, rc⟩ =
      ⟨.error "Unable to retrieve HMAC secret after maximum retries", ⟨none, ct, rc + 3⟩, 3⟩ := rfl

theorem verifySignature_fetch_fail (ct : Int) (rc : Nat) (now : Int) (ts sig : String)
    (hts : validateTimestamp defaultHmacConfig now ts = true)
    (hs1 : sig ≠ "") (hs2 : isHex64 sig = true) :
    verifySignature defaultHmacConfig (fun _ => none) ⟨none, ct, rc⟩ now ts sig =
      ⟨⟨false, some "verification_error", none⟩, ⟨none, ct, rc + 3⟩, 3, false, none⟩ := by
  simp [verifySignature, hts, hs1, hs2, getSecret_fetchFail]

/-- C2 (amended): when the secret provider exhausts its retries, the middleware
responds 401 with body message `HMAC verification failed`, distinguishable
from the `Invalid HMAC signature` message of a signature mismatch only by the
message text, not by status class. -/
theorem c2_secret_unavailable_is_401 (now : Int) (c : CacheState Bool) (ts sig : String)
    (hts : validateTimestamp defaultHmacConfig now ts = true)
    (hs1 : sig ≠ "") (hs2 : isHex64 sig = true)
    (hcc : mapGet c.entries
      (cacheFullKey (some "verification") (verificationCacheKey ts sig)) = none) :
    (hmacVerifyMw defaultHmacConfig (fun _ => none) now c {} (some ts) (some sig)).outcome
        = .respond 401 "HMAC verification failed"
    ∧ (hmacVerifyMw defaultHmacConfig (fun _ => none) now c {} (some ts) (some sig)).fetchCalls
        = defaultHmacConfig.maxRetries
    ∧ hmacErrorMessage (some "signature_mismatch") = "Invalid HMAC signature"
    ∧ "HMAC verification failed" ≠ "Invalid HMAC signature" := by
  have hts0 : ts ≠ "" := by
    rcases (validateTimestamp_true_iff _ _ _).mp hts with ⟨t, hp, _⟩
    exact parseIntJs_ne_empty hp
  have hvf := verifySignature_fetch_fail 0 0 now ts sig hts hs1 hs2
  have hmr : defaultHmacConfig.maxRetries = 3 := rfl
  refine ⟨?_, ?_, rfl, by decide⟩ <;>
    simp [hmacVerifyMw, hts0, hs1, checkCache, cacheGet, verificationCacheOpts, hcc, hvf,
      hmacErrorMessage, hmr]


/-- C2 counterexample: at a concrete request whose secret fetch exhausts all
retries, the middleware responds with status 401, not a 500-class status. -/
theorem c2_counterexample_status_is_401 :
    (hmacVerifyMw defaultHmacConfig (fun _ => none) 1700000000000 {} {}
      (some "1700000000000")
      (some "0000000000000000000000000000000000000000000000000000000000000000")).outcome
      = .respond 401 "HMAC verification failed" := by decide

/-- C2 witness for the amended theorem at a concrete request. -/
theorem c2_secret_unavailable_witness :
    (hmacVerifyMw defaultHmacConfig (fun _ => none) 1700000000000 {} {}
      (some "1700000000000")
      (some "ffffffffffffffffffffffffffffffffffffffffffffffffffffffffffffffff")).outcome
        = .respond 401 "HMAC verification failed"
    ∧ (hmacVerifyMw defaultHmacConfig (fun _ => none) 1700000000000 {} {}
      (some "1700000000000")
      (some "ffffffffffffffffffffffffffffffffffffffffffffffffffffffffffffffff")).fetchCalls
        = defaultHmacConfig.maxRetries
    ∧ hmacErrorMessage (some "signature_mismatch") = "Invalid HMAC signature"
    ∧ "HMAC verification failed" ≠ "Invalid HMAC signature" :=
  c2_secret_unavailable_is_401 1700000000000 {}
    "1700000000000" "ffffffffffffffffffffffffffffffffffffffffffffffffffffffffffffffff"
    (by decide) (by decide) (by decide) (by decide)


set_option maxRecDepth 100000 in
/-- C3: the verification-result cache entry the middleware writes carries
`ttl := 60` — sixty milliseconds in `cacheService` units, so an identical
request 1000 ms later misses the cache and recomputes the HMAC, while one
50 ms later is served from the cache. -/
theorem c3_cache_ttl_is_60ms :
    (mapGet (hmacVerifyMw defaultHmacConfig fetchCheckedIn 1700000000000 {} {}
        (some "1700000000000")
        (some (hmacHex hardcodedHmacSecret "1700000000000"))).cache.entries
      (cacheFullKey (some "verification")
        (verificationCacheKey "1700000000000"
          (hmacHex hardcodedHmacSecret "1700000000000"))))
      = some ⟨true, 1700000000000, 60⟩
    ∧ (hmacVerifyMw defaultHmacConfig fetchCheckedIn 1700000000050
        (hmacVerifyMw defaultHmacConfig fetchCheckedIn 1700000000000 {} {}
          (some "1700000000000")
          (some (hmacHex hardcodedHmacSecret "1700000000000"))).cache {}
        (some "1700000000000")
        (some (hmacHex hardcodedHmacSecret "1700000000000"))).fetchCalls = 0
    ∧ (hmacVerifyMw defaultHmacConfig fetchCheckedIn 1700000001000
        (hmacVerifyMw defaultHmacConfig fetchCheckedIn 1700000000000 {} {}
          (some "1700000000000")
          (some (hmacHex hardcodedHmacSecret "1700000000000"))).cache {}
        (some "1700000000000")
        (some (hmacHex hardcodedHmacSecret "1700000000000"))).fetchCalls = 1 := by
  refine ⟨?_, ?_, ?_⟩ <;> decide



theorem takeWhile_digits_append (ds rest : List Char)
    (hds : ∀ c ∈ ds, isDigitChar c = true)
    (hrest : ∀ c, rest.head? = some c → isDigitChar c = false) :
    (ds ++ rest).takeWhile isDigitChar = ds := by
  induction ds with
  | nil =>
    cases rest with
    | nil => rfl
    | cons r rs => simp [List.takeWhile_cons, hrest r rfl]
  | cons d ds' ih =>
    simp only [List.cons_append, List.takeWhile_cons, hds d (by simp)]
    simp [ih (fun c hc => hds c (by simp [hc]))]

theorem parseIntJs_leading_digits (ds rest : List Char) (hne : ds ≠ [])
    (hds : ∀ c ∈ ds, isDigitChar c = true)
    (hrest : ∀ c, rest.head? = some c → isDigitChar c = false) :
    parseIntJs ⟨ds ++ rest⟩ = some ((digitsVal ds : Nat) : Int) := by
  obtain ⟨d, ds', rfl⟩ := List.exists_cons_of_ne_nil hne
  have hd : isDigitChar d = true := hds d (by simp)
  have hd' : 48 ≤ d.toNat ∧ d.toNat ≤ 57 := by
    simpa [isDigitChar, decide_eq_true_eq] using hd
  have hsp : isJsSpace d = false := by
    simp only [isJsSpace, decide_eq_false_iff_not]
    omega
  have hminus : ¬ (d = '-') := by rintro rfl; simp [isDigitChar] at hd
  have hplus : ¬ (d = '+') := by rintro rfl; simp [isDigitChar] at hd
  show parseIntJs (String.mk ((d :: ds') ++ rest)) = _
  unfold parseIntJs
  have hdata : (String.mk ((d :: ds') ++ rest)).data = (d :: ds') ++ rest := rfl
  rw [hdata, List.cons_append, List.dropWhile_cons_of_neg (by simp [hsp])]
  simp only [hminus, hplus, if_false, ite_false]
  rw [show (d :: (ds' ++ rest)) = (d :: ds') ++ rest from rfl,
     digitPrefixVal, takeWhile_digits_append _ _ hds hrest]
  simp


/-- C10: a timestamp header whose leading digit prefix parses to an in-window
positive value passes `validateTimestamp` even when followed by non-digit
characters, and the expected HMAC is computed over the full original header
string. -/
theorem c10_lenient_timestamp_parsing (now : Int) (ds rest : List Char)
    (hne : ds ≠ []) (hds : ∀ c ∈ ds, isDigitChar c = true)
    (hrest : ∀ c, rest.head? = some c → isDigitChar c = false)
    (hpos : 0 < (digitsVal ds : Int))
    (hfut : (digitsVal ds : Int) ≤ now + 300000)
    (hwin : |now - (digitsVal ds : Int)| ≤ 300000) :
    validateTimestamp defaultHmacConfig now ⟨ds ++ rest⟩ = true
    ∧ (verifySignature defaultHmacConfig fetchCheckedIn {} now ⟨ds ++ rest⟩
        (hmacHex hardcodedHmacSecret ⟨ds ++ rest⟩)).result.isValid = true
    ∧ (verifySignature defaultHmacConfig fetchCheckedIn {} now ⟨ds ++ rest⟩
        (hmacHex hardcodedHmacSecret ⟨ds ++ rest⟩)).expectedSig
        = some (hmacHex hardcodedHmacSecret ⟨ds ++ rest⟩) := by
  have hp := parseIntJs_leading_digits ds rest hne hds hrest
  have hv : validateTimestamp defaultHmacConfig now ⟨ds ++ rest⟩ = true := by
    rw [validateTimestamp_true_iff]
    exact ⟨digitsVal ds, hp, hpos, hfut, hwin⟩
  refine ⟨hv, ?_, ?_⟩ <;> rw [verifySignature_roundtrip now _ hv]

/-- C10 witness: the header `1700000000000abc`. -/
theorem c10_lenient_timestamp_witness :
    validateTimestamp defaultHmacConfig 1700000000000 ⟨"1700000000000".data ++ "abc".data⟩ = true
    ∧ (verifySignature defaultHmacConfig fetchCheckedIn {} 1700000000000
        ⟨"1700000000000".data ++ "abc".data⟩
        (hmacHex hardcodedHmacSecret ⟨"1700000000000".data ++ "abc".data⟩)).result.isValid = true
    ∧ (verifySignature defaultHmacConfig fetchCheckedIn {} 1700000000000
        ⟨"1700000000000".data ++ "abc".data⟩
        (hmacHex hardcodedHmacSecret ⟨"1700000000000".data ++ "abc".data⟩)).expectedSig
        = some (hmacHex hardcodedHmacSecret ⟨"1700000000000".data ++ "abc".data⟩) :=
  c10_lenient_timestamp_parsing 1700000000000 "1700000000000".data "abc".data
    (by decide) (by decide) (by decide) (by decide) (by decide) (by decide)


/-- C4 (amended): the round trip holds for the service's own secret. -/
theorem c4_roundtrip_service_secret (now t : Int) (ts : String)
    (hp : parseIntJs ts = some t) (hpos : 0 < t)
    (hfut : t ≤ now + 300000) (hwin : |now - t| ≤ 300000) :
    32 ≤ hardcodedHmacSecret.length
    ∧ generateHmac hardcodedHmacSecret ts = .ok (hmacHex hardcodedHmacSecret ts)
    ∧ (verifySignature defaultHmacConfig fetchCheckedIn {} now ts
        (hmacHex hardcodedHmacSecret ts)).result.isValid = true := by
  have hv : validateTimestamp defaultHmacConfig now ts = true := by
    rw [validateTimestamp_true_iff]
    exact ⟨t, hp, hpos, hfut, hwin⟩
  have hne : ts ≠ "" := parseIntJs_ne_empty hp
  refine ⟨by decide, ?_, by rw [verifySignature_roundtrip now ts hv]⟩
  simp [generateHmac, hne, show hardcodedHmacSecret ≠ "" by decide]

/-- C4 witness for the amended round trip at a concrete timestamp. -/
theorem c4_roundtrip_witness :
    32 ≤ hardcodedHmacSecret.length
    ∧ generateHmac hardcodedHmacSecret "1700000000000"
        = .ok (hmacHex hardcodedHmacSecret "1700000000000")
    ∧ (verifySignature defaultHmacConfig fetchCheckedIn {} 1700000000000 "1700000000000"
        (hmacHex hardcodedHmacSecret "1700000000000")).result.isValid = true :=
  c4_roundtrip_service_secret 1700000000000 1700000000000 "1700000000000"
    (by decide) (by decide) (by decide) (by decide)

set_option maxRecDepth 100000 in
/-- C4 counterexample: a 32-character secret different from the service's own
fails the round trip, because verification recomputes the signature with the
service's secret. -/
theorem c4_counterexample_arbitrary_secret :
    ("aaaaaaaaaaaaaaaaaaaaaaaaaaaaaaaa" : String).length = 32
    ∧ generateHmac "aaaaaaaaaaaaaaaaaaaaaaaaaaaaaaaa" "1700000000000"
        = .ok (hmacHex "aaaaaaaaaaaaaaaaaaaaaaaaaaaaaaaa" "1700000000000")
    ∧ (verifySignature defaultHmacConfig fetchCheckedIn {} 1700000000000 "1700000000000"
        (hmacHex "aaaaaaaaaaaaaaaaaaaaaaaaaaaaaaaa" "1700000000000")).result.isValid
        = false := by
  refine ⟨by decide, by rfl, by decide⟩


theorem hexToBytes_length : ∀ l : List Char, (hexToBytes l).length = l.length / 2
  | [] => by simp [hexToBytes]
  | [c] => by simp [hexToBytes]
  | c1 :: c2 :: rest => by
      simp [hexToBytes, hexToBytes_length rest]
      omega

theorem isHex64_data_length {s : String} (h : isHex64 s = true) : s.data.length = 64 := by
  simp only [isHex64, decide_eq_true_eq] at h
  exact h.1

theorem utf8Char_ne_nil (c : Char) : utf8Char c ≠ [] := by
  simp only [utf8Char]
  split_ifs <;> simp

theorem utf8Bytes_ne_nil {s : String} (h : s ≠ "") : utf8Bytes s ≠ [] := by
  have hd : s.data ≠ [] := fun he => h (by cases s; simp_all)
  obtain ⟨c, cs, hcs⟩ := List.exists_cons_of_ne_nil hd
  simp [utf8Bytes, hcs, utf8Char_ne_nil c]

/-- C1 (amended): with the secret initialized and a 64-hex signature header,
verification compares against the HMAC of the verbatim raw body when one was
captured, and otherwise falls back to the HMAC of the re-serialized JSON body
rather than failing closed. -/
theorem c1_rawbody_semantics (sec : String) (hsec : sec ≠ "") (sig : String)
    (hs : isHex64 sig = true) (rb : String) (bodyS : Option String) :
    (rb ≠ "" → isRequestSignedByPageProof (some sec) ⟨some sig, some rb, bodyS⟩
        = decide (hexToBytes sig.data = hmacSha256 (utf8Bytes sec) (utf8Bytes rb)))
    ∧ (bodyS.getD "\x7b\x7d" ≠ "" → isRequestSignedByPageProof (some sec) ⟨some sig, none, bodyS⟩
        = decide (hexToBytes sig.data = hmacSha256 (utf8Bytes sec)
            (utf8Bytes (bodyS.getD "\x7b\x7d")))) := by
  have hlen : (hexToBytes sig.data).length = 32 := by
    rw [hexToBytes_length, isHex64_data_length hs]
  constructor
  · intro hrb
    have hne := utf8Bytes_ne_nil hrb
    simp [isRequestSignedByPageProof, hsec, hs, hrb, timingSafeEqual, hlen,
      hmacSha256_length, List.length_eq_zero, hne]
  · intro hbs
    have hne := utf8Bytes_ne_nil hbs
    simp [isRequestSignedByPageProof, hsec, hs, timingSafeEqual, hlen,
      hmacSha256_length, List.length_eq_zero, hne]


/-- C1 witness: a captured raw body is verified against its verbatim bytes,
and an uncaptured one against the re-serialized parsed body. -/
theorem c1_rawbody_semantics_witness :
    (("hello" : String) ≠ "" → isRequestSignedByPageProof
        (some "aaaaaaaaaaaaaaaaaaaaaaaaaaaaaaaa")
        ⟨some (String.mk (List.replicate 64 '0')), some "hello", none⟩
        = decide (hexToBytes (String.mk (List.replicate 64 '0')).data
            = hmacSha256 (utf8Bytes "aaaaaaaaaaaaaaaaaaaaaaaaaaaaaaaa") (utf8Bytes "hello")))
    ∧ ((Option.getD none "\x7b\x7d" : String) ≠ "" → isRequestSignedByPageProof
        (some "aaaaaaaaaaaaaaaaaaaaaaaaaaaaaaaa")
        ⟨some (String.mk (List.replicate 64 '0')), none, none⟩
        = decide (hexToBytes (String.mk (List.replicate 64 '0')).data
            = hmacSha256 (utf8Bytes "aaaaaaaaaaaaaaaaaaaaaaaaaaaaaaaa")
                (utf8Bytes (Option.getD none "\x7b\x7d")))) :=
  c1_rawbody_semantics "aaaaaaaaaaaaaaaaaaaaaaaaaaaaaaaa" (by decide)
    (String.mk (List.replicate 64 '0')) (by decide) "hello" none

set_option maxRecDepth 100000 in
/-- C1 counterexample: a request with no captured raw body is accepted when the
signature matches the HMAC of the JSON re-serialization of its (absent) parsed
body, so verification does not fail closed. -/
theorem c1_counterexample_fallback_accepts :
    (PageProofRequest.mk
        (some (bytesToHex (hmacSha256
          (utf8Bytes "aaaaaaaaaaaaaaaaaaaaaaaaaaaaaaaa") (utf8Bytes "\x7b\x7d"))))
        none none).rawBody = none
    ∧ isRequestSignedByPageProof (some "aaaaaaaaaaaaaaaaaaaaaaaaaaaaaaaa")
        (PageProofRequest.mk
          (some (bytesToHex (hmacSha256
            (utf8Bytes "aaaaaaaaaaaaaaaaaaaaaaaaaaaaaaaa") (utf8Bytes "\x7b\x7d"))))
          none none) = true := by
  exact ⟨rfl, by decide⟩



theorem mapGet_cons {β : Type} (p : String × β) (rest : List (String × β)) (k : String) :
    mapGet (p :: rest) k = if p.1 = k then some p.2 else mapGet rest k := by
  unfold mapGet
  rw [List.find?_cons]
  by_cases h : p.1 = k <;> simp [h]

theorem mapGet_mapDelete {β : Type} (m : List (String × β)) (k : String) :
    mapGet (mapDelete m k) k = none := by
  unfold mapGet mapDelete
  rw [List.find?_eq_none.mpr]
  · rfl
  · intro x hx
    have hmem := (List.mem_filter.mp hx).2
    simp only [decide_eq_true_eq] at hmem ⊢
    exact hmem

theorem mapGet_filter_of_first {β : Type} (q : String × β → Bool) :
    ∀ (m : List (String × β)) (k : String) (e : β),
      mapGet m k = some e → q (k, e) = true →
      mapGet (m.filter q) k = some e := by
  intro m
  induction m with
  | nil => intro k e h _; simp [mapGet] at h
  | cons p rest ih =>
    intro k e hfind hq
    rw [mapGet_cons] at hfind
    by_cases hp : p.1 = k
    · rw [if_pos hp] at hfind
      have hpe : p = (k, e) := by
        cases p
        simp_all
      rw [List.filter_cons, hpe]
      simp only [hq, if_pos]
      rw [mapGet_cons]
      simp
    · rw [if_neg hp] at hfind
      rw [List.filter_cons]
      by_cases hqp : q p = true
      · rw [if_pos hqp, mapGet_cons, if_neg hp]
        exact ih k e hfind hq
      · rw [if_neg hqp]
        exact ih k e hfind hq


/-- C7: `get` never returns a stale entry: a stale entry (positive TTL, age
strictly above it) is deleted the moment it is observed and a miss returned;
an entry with non-positive TTL is exempt from lazy expiry on `get`/`exists`
and from the periodic sweep; any value `get` does return belongs to a
non-stale entry. -/
theorem c7_cache_freshness {α : Type} (s : CacheState α) (now : Int) (key : String)
    (opts : CacheOptions) (e : CacheEntry α)
    (hfind : mapGet s.entries (cacheFullKey opts.pfx key) = some e) :
    (0 < e.ttl → e.ttl < now - e.timestamp →
        (cacheGet s now key opts).1 = none
        ∧ mapGet ((cacheGet s now key opts).2).entries (cacheFullKey opts.pfx key) = none
        ∧ (cacheExists s now key opts.pfx).1 = false)
    ∧ (e.ttl ≤ 0 →
        (cacheGet s now key opts).1 = some e.value
        ∧ (cacheExists s now key opts.pfx).1 = true
        ∧ mapGet (cleanupExpiredEntries s now).entries (cacheFullKey opts.pfx key) = some e)
    ∧ (∀ v, (cacheGet s now key opts).1 = some v →
        v = e.value ∧ ¬ (0 < e.ttl ∧ e.ttl < now - e.timestamp)) := by
  refine ⟨?_, ?_, ?_⟩
  · intro h1 h2
    have hc : e.ttl > 0 ∧ now - e.timestamp > e.ttl := ⟨h1, h2⟩
    refine ⟨?_, ?_, ?_⟩ <;>
      simp [cacheGet, cacheExists, hfind, hc, mapGet_mapDelete]
  · intro h1
    have hc : ¬ (e.ttl > 0 ∧ now - e.timestamp > e.ttl) := by omega
    refine ⟨?_, ?_, ?_⟩
    · simp [cacheGet, hfind, hc]
    · simp [cacheExists, hfind, hc]
    · unfold cleanupExpiredEntries
      exact mapGet_filter_of_first _ s.entries _ e hfind (by simp; omega)
  · intro v hv
    by_cases hc : e.ttl > 0 ∧ now - e.timestamp > e.ttl
    · simp [cacheGet, hfind, hc] at hv
    · simp [cacheGet, hfind, hc] at hv
      exact ⟨hv.symm, by omega⟩

/-- C7 witness: a stale entry is missed and deleted; a never-expiring entry
survives `get` and the sweep. -/
theorem c7_cache_freshness_witness :
    (cacheGet (CacheState.mk [("k", ⟨5, 0, 100⟩)] 0 0) 1000 "k" ⟨none, none⟩).1
        = (none : Option Nat)
    ∧ (cacheExists (CacheState.mk [("k", ⟨5, 0, 100⟩)] 0 0) 1000 "k" none).1 = false
    ∧ (cacheGet (CacheState.mk [("z", ⟨7, 0, 0⟩)] 0 0) 999999 "z" ⟨none, none⟩).1 = some 7
    ∧ mapGet (cleanupExpiredEntries (CacheState.mk [("z", ⟨7, 0, 0⟩)] 0 0) 999999).entries
        (cacheFullKey none "z") = some ⟨7, 0, 0⟩ := by
  have h1 := c7_cache_freshness (α := Nat) (CacheState.mk [("k", ⟨5, 0, 100⟩)] 0 0)
    1000 "k" ⟨none, none⟩ ⟨5, 0, 100⟩ (by decide)
  have h2 := c7_cache_freshness (α := Nat) (CacheState.mk [("z", ⟨7, 0, 0⟩)] 0 0)
    999999 "z" ⟨none, none⟩ ⟨7, 0, 0⟩ (by decide)
  refine ⟨(h1.1 (by decide) (by decide)).1, (h1.1 (by decide) (by decide)).2.2, ?_, ?_⟩
  · exact (h2.2.1 (by decide)).1
  · exact (h2.2.1 (by decide)).2.2


theorem append_colon_inj : ∀ (l1 : List Char) (k1 : List Char) (l2 : List Char) (k2 : List Char),
    ':' ∉ l1 → ':' ∉ l2 → l1 ++ ':' :: k1 = l2 ++ ':' :: k2 → l1 = l2 ∧ k1 = k2 := by
  intro l1
  induction l1 with
  | nil =>
    intro k1 l2 k2 _ h2 h
    cases l2 with
    | nil => simpa using h
    | cons b bs =>
      simp only [List.nil_append, List.cons_append, List.cons.injEq] at h
      exact absurd (h.1 ▸ List.mem_cons_self b bs) h2
  | cons a as ih =>
    intro k1 l2 k2 h1 h2 h
    cases l2 with
    | nil =>
      simp only [List.nil_append, List.cons_append, List.cons.injEq] at h
      exact absurd (h.1.symm ▸ List.mem_cons_self a as) h1
    | cons b bs =>
      simp only [List.cons_append, List.cons.injEq] at h
      obtain ⟨rfl, hrest⟩ := h
      have := ih k1 bs k2 (fun hm => h1 (List.mem_cons_of_mem _ hm))
        (fun hm => h2 (List.mem_cons_of_mem _ hm)) hrest
      simp [this.1, this.2]

theorem cacheFullKey_some_eq (p k : String) (hp : p ≠ "") :
    cacheFullKey (some p) k = p ++ ":" ++ k := by
  simp [cacheFullKey, hp]

theorem cacheFullKey_some_ne {p1 k1 p2 k2 : String}
    (hp1 : p1 ≠ "") (hc1 : ':' ∉ p1.data) (hp2 : p2 ≠ "") (hc2 : ':' ∉ p2.data)
    (hne : ¬ (p1 = p2 ∧ k1 = k2)) :
    cacheFullKey (some p1) k1 ≠ cacheFullKey (some p2) k2 := by
  rw [cacheFullKey_some_eq _ _ hp1, cacheFullKey_some_eq _ _ hp2]
  intro h
  have hd := congrArg String.data h
  simp only [String.data_append] at hd
  simp only [List.append_assoc, List.singleton_append] at hd
  obtain ⟨e1, e2⟩ := append_colon_inj p1.data k1.data p2.data k2.data hc1 hc2 hd
  exact hne ⟨String.ext e1, String.ext e2⟩

theorem mapGet_map_update {β : Type} (m : List (String × β)) (k k' : String) (v : β)
    (h : k ≠ k') :
    mapGet (m.map (fun p => if p.1 = k then (k, v) else p)) k' = mapGet m k' := by
  induction m with
  | nil => rfl
  | cons p rest ih =>
    rw [List.map_cons, mapGet_cons, mapGet_cons]
    by_cases hp : p.1 = k
    · rw [if_pos hp]
      simp only []
      rw [if_neg h, if_neg (by rw [hp]; exact h)]
      exact ih
    · rw [if_neg hp]
      by_cases hp' : p.1 = k' <;> simp [hp', ih]

theorem mapGet_append_single_ne {β : Type} (m : List (String × β)) (k k' : String) (v : β)
    (h : k ≠ k') :
    mapGet (m ++ [(k, v)]) k' = mapGet m k' := by
  induction m with
  | nil => simp [mapGet_cons, mapGet, h]
  | cons p rest ih => rw [List.cons_append, mapGet_cons, mapGet_cons, ih]

theorem mapGet_mapSet_ne {β : Type} (m : List (String × β)) (k k' : String) (v : β)
    (h : k ≠ k') :
    mapGet (mapSet m k v) k' = mapGet m k' := by
  unfold mapSet
  by_cases hex : (List.find? (fun p => p.1 = k) m).isSome
  · rw [if_pos hex]
    exact mapGet_map_update m k k' v h
  · rw [if_neg hex]
    exact mapGet_append_single_ne m k k' v h


/-- C9 (amended): distinct (namespace, key) coordinates with nonempty,
colon-free namespaces never interfere through `set`, provided the cache is
below capacity (at capacity, `set` may evict entries of any namespace). -/
theorem c9_namespace_partitioning {α : Type} (s : CacheState α) (now now2 : Int)
    (k1 k2 p1 p2 : String) (v : α) (ttl1 ttl2 : Option Int)
    (hp1 : p1 ≠ "") (hc1 : ':' ∉ p1.data) (hp2 : p2 ≠ "") (hc2 : ':' ∉ p2.data)
    (hne : ¬ (p1 = p2 ∧ k1 = k2)) (hcap : s.entries.length < cacheMaxSize) :
    (cacheGet (cacheSet s now k1 v ⟨ttl1, some p1⟩).2 now2 k2 ⟨ttl2, some p2⟩).1
        = (cacheGet s now2 k2 ⟨ttl2, some p2⟩).1
    ∧ (cacheExists (cacheSet s now k1 v ⟨ttl1, some p1⟩).2 now2 k2 (some p2)).1
        = (cacheExists s now2 k2 (some p2)).1
    ∧ (cacheDelete (cacheSet s now k1 v ⟨ttl1, some p1⟩).2 k2 (some p2)).1
        = (cacheDelete s k2 (some p2)).1 := by
  have hfk := cacheFullKey_some_ne hp1 hc1 hp2 hc2 hne
  have hev : evictIfNeeded s.entries = s.entries := by
    unfold evictIfNeeded
    rw [if_neg (by omega)]
  have hset : (cacheSet s now k1 v ⟨ttl1, some p1⟩).2.entries
      = mapSet s.entries (cacheFullKey (some p1) k1)
          ⟨v, now, ttl1.getD cacheDefaultTtl⟩ := by
    simp [cacheSet, hev]
  have hmg : mapGet (cacheSet s now k1 v ⟨ttl1, some p1⟩).2.entries
      (cacheFullKey (some p2) k2) = mapGet s.entries (cacheFullKey (some p2) k2) := by
    rw [hset]
    exact mapGet_mapSet_ne _ _ _ _ hfk
  refine ⟨?_, ?_, ?_⟩
  · cases h : mapGet s.entries (cacheFullKey (some p2) k2) with
    | none => simp [cacheGet, hmg, h]
    | some e =>
      by_cases hc : e.ttl > 0 ∧ now2 - e.timestamp > e.ttl <;>
        simp [cacheGet, hmg, h, hc]
  · cases h : mapGet s.entries (cacheFullKey (some p2) k2) with
    | none => simp [cacheExists, hmg, h]
    | some e =>
      by_cases hc : e.ttl > 0 ∧ now2 - e.timestamp > e.ttl <;>
        simp [cacheExists, hmg, h, hc]
  · simp [cacheDelete, hmg]

/-- C9 witness: two distinct coordinates under colon-free namespaces. -/
theorem c9_namespace_partitioning_witness :
    (cacheGet (cacheSet (CacheState.mk ([] : List (String × CacheEntry Nat)) 0 0)
        5 "x" 7 ⟨some 1000, some "p"⟩).2 5 "y" ⟨some 1000, some "q"⟩).1
        = (cacheGet (CacheState.mk ([] : List (String × CacheEntry Nat)) 0 0)
            5 "y" ⟨some 1000, some "q"⟩).1
    ∧ (cacheExists (cacheSet (CacheState.mk ([] : List (String × CacheEntry Nat)) 0 0)
        5 "x" 7 ⟨some 1000, some "p"⟩).2 5 "y" (some "q")).1
        = (cacheExists (CacheState.mk ([] : List (String × CacheEntry Nat)) 0 0)
            5 "y" (some "q")).1
    ∧ (cacheDelete (cacheSet (CacheState.mk ([] : List (String × CacheEntry Nat)) 0 0)
        5 "x" 7 ⟨some 1000, some "p"⟩).2 "y" (some "q")).1
        = (cacheDelete (CacheState.mk ([] : List (String × CacheEntry Nat)) 0 0)
            "y" (some "q")).1 :=
  c9_namespace_partitioning (CacheState.mk [] 0 0) 5 5 "x" "y" "p" "q" 7
    (some 1000) (some 1000) (by decide) (by decide) (by decide) (by decide)
    (by decide) (by decide)

/-- C9 counterexample: the colon composition of namespace and key collides
across coordinates — writing key `x` in namespace `p` is visible to a read of
key `p:x` in the empty namespace. -/
theorem c9_counterexample_colon_collision :
    (cacheGet (CacheState.mk ([] : List (String × CacheEntry Nat)) 0 0)
        5 "p:x" ⟨none, none⟩).1 = none
    ∧ (cacheGet (cacheSet (CacheState.mk ([] : List (String × CacheEntry Nat)) 0 0)
        5 "x" 7 ⟨some 1000, some "p"⟩).2 5 "p:x" ⟨none, none⟩).1 = some 7
    ∧ (cacheDelete (cacheSet (CacheState.mk ([] : List (String × CacheEntry Nat)) 0 0)
        5 "x" 7 ⟨some 1000, some "p"⟩).2 "p:x" none).1 = true := by
  refine ⟨rfl, by decide, by decide⟩



theorem mapGet_append_single_self {β : Type} (m : List (String × β)) (k : String) (v : β)
    (hnone : List.find? (fun p => p.1 = k) m = none) :
    mapGet (m ++ [(k, v)]) k = some v := by
  induction m with
  | nil => simp [mapGet_cons]
  | cons p rest ih =>
    rw [List.find?_cons] at hnone
    by_cases hp : p.1 = k
    · simp [hp] at hnone
    · simp only [hp, decide_eq_true_eq, if_neg] at hnone
      rw [List.cons_append, mapGet_cons, if_neg hp]
      exact ih (by simpa [hp] using hnone)

theorem mapGet_map_update_self {β : Type} (m : List (String × β)) (k : String) (v : β)
    (hsome : (List.find? (fun p => p.1 = k) m).isSome) :
    mapGet (m.map (fun p => if p.1 = k then (k, v) else p)) k = some v := by
  induction m with
  | nil => simp [List.find?] at hsome
  | cons p rest ih =>
    rw [List.map_cons, mapGet_cons]
    by_cases hp : p.1 = k
    · simp [hp]
    · rw [if_neg hp]
      rw [if_neg hp]
      apply ih
      rw [List.find?_cons] at hsome
      simpa [hp] using hsome

theorem mapGet_mapSet_self {β : Type} (m : List (String × β)) (k : String) (v : β) :
    mapGet (mapSet m k v) k = some v := by
  unfold mapSet
  by_cases hex : (List.find? (fun p => p.1 = k) m).isSome
  · rw [if_pos hex]
    exact mapGet_map_update_self m k v hex
  · rw [if_neg hex]
    refine mapGet_append_single_self m k v ?_
    cases hfind : List.find? (fun p => decide (p.1 = k)) m with
    | none => rfl
    | some x => simp [hfind] at hex

theorem length_mapSet_le {β : Type} (m : List (String × β)) (k : String) (v : β) :
    (mapSet m k v).length ≤ m.length + 1 := by
  unfold mapSet
  split
  · simp
  · simp


theorem foldl_mapDelete {β : Type} :
    ∀ (L : List (String × β)) (m : List (String × β)),
      L.foldl (fun acc p => mapDelete acc p.1) m
        = m.filter (fun q => decide (∀ p ∈ L, ¬ q.1 = p.1)) := by
  intro L
  induction L with
  | nil =>
    intro m
    simp only [List.foldl_nil]
    rw [List.filter_eq_self.mpr]
    intro a _
    simp
  | cons a L ih =>
    intro m
    rw [List.foldl_cons, ih (mapDelete m a.1)]
    unfold mapDelete
    rw [List.filter_filter]
    apply List.filter_congr
    intro q _
    rw [← Bool.decide_and]
    rw [decide_eq_decide]
    simp only [List.mem_cons]
    constructor
    · rintro ⟨h1, h2⟩ p (rfl | hp)
      · exact h2
      · exact h1 p hp
    · intro h
      exact ⟨fun p hp => h p (Or.inr hp), h a (Or.inl rfl)⟩


theorem evict_decomposition {α : Type} (m : List (String × CacheEntry α))
    (hnodup : (m.map Prod.fst).Nodup) (hcap : cacheMaxSize ≤ m.length) :
    ∃ removed kept,
      m.Perm (removed ++ kept)
      ∧ removed.length = evictCount
      ∧ (∀ p ∈ removed, ∀ q ∈ kept, p.2.timestamp ≤ q.2.timestamp)
      ∧ (evictIfNeeded m).Perm kept
      ∧ (evictIfNeeded m).length = m.length - evictCount := by
  have hperm : (m.mergeSort (fun a b => a.2.timestamp ≤ b.2.timestamp)).Perm m :=
    List.mergeSort_perm m _
  have hsortlen : (m.mergeSort (fun a b => a.2.timestamp ≤ b.2.timestamp)).length
      = m.length := hperm.length_eq
  have hec : evictCount ≤ m.length := le_trans (by decide) hcap
  have hsplit : (m.mergeSort (fun a b => a.2.timestamp ≤ b.2.timestamp)).take evictCount
      ++ (m.mergeSort (fun a b => a.2.timestamp ≤ b.2.timestamp)).drop evictCount
      = m.mergeSort (fun a b => a.2.timestamp ≤ b.2.timestamp) :=
    List.take_append_drop _ _
  have hmperm : m.Perm
      ((m.mergeSort (fun a b => a.2.timestamp ≤ b.2.timestamp)).take evictCount
        ++ (m.mergeSort (fun a b => a.2.timestamp ≤ b.2.timestamp)).drop evictCount) := by
    rw [hsplit]
    exact hperm.symm
  have hpair : List.Pairwise
      (fun a b => (fun a b : String × CacheEntry α =>
        decide (a.2.timestamp ≤ b.2.timestamp)) a b = true)
      (m.mergeSort (fun a b => a.2.timestamp ≤ b.2.timestamp)) := by
    apply List.sorted_mergeSort
    · intro a b c hab hbc
      simp only [decide_eq_true_eq] at hab hbc ⊢
      omega
    · intro a b
      simp only [Bool.or_eq_true, decide_eq_true_eq]
      omega
  have hcross : ∀ p ∈ (m.mergeSort (fun a b => a.2.timestamp ≤ b.2.timestamp)).take evictCount,
      ∀ q ∈ (m.mergeSort (fun a b => a.2.timestamp ≤ b.2.timestamp)).drop evictCount,
      p.2.timestamp ≤ q.2.timestamp := by
    rw [← hsplit] at hpair
    have := (List.pairwise_append.mp hpair).2.2
    intro p hp q hq
    have hle := this p hp q hq
    simpa using hle
  have hdisj : ∀ q ∈ (m.mergeSort (fun a b => a.2.timestamp ≤ b.2.timestamp)).drop evictCount,
      ∀ p ∈ (m.mergeSort (fun a b => a.2.timestamp ≤ b.2.timestamp)).take evictCount,
      ¬ q.1 = p.1 := by
    have hnd : (((m.mergeSort (fun a b => a.2.timestamp ≤ b.2.timestamp)).take evictCount
        ++ (m.mergeSort (fun a b => a.2.timestamp ≤ b.2.timestamp)).drop evictCount).map
          Prod.fst).Nodup := (hmperm.map Prod.fst).nodup hnodup
    rw [List.map_append] at hnd
    have hd := (List.nodup_append.mp hnd).2.2
    intro q hq p hp heq
    exact hd (List.mem_map_of_mem Prod.fst hp)
      (heq ▸ List.mem_map_of_mem Prod.fst hq)
  have hevict : evictIfNeeded m = m.filter
      (fun q => decide (∀ p ∈ (m.mergeSort
        (fun a b => a.2.timestamp ≤ b.2.timestamp)).take evictCount, ¬ q.1 = p.1)) := by
    unfold evictIfNeeded
    rw [if_pos hcap]
    exact foldl_mapDelete _ m
  have hfilterK : ((m.mergeSort (fun a b => a.2.timestamp ≤ b.2.timestamp)).take
      evictCount).filter
      (fun q => decide (∀ p ∈ (m.mergeSort
        (fun a b => a.2.timestamp ≤ b.2.timestamp)).take evictCount, ¬ q.1 = p.1)) = [] := by
    rw [List.filter_eq_nil_iff]
    intro p hp
    simp only [decide_eq_true_eq, not_forall]
    push_neg
    exact ⟨p, hp, rfl⟩
  have hfilterD : ((m.mergeSort (fun a b => a.2.timestamp ≤ b.2.timestamp)).drop
      evictCount).filter
      (fun q => decide (∀ p ∈ (m.mergeSort
        (fun a b => a.2.timestamp ≤ b.2.timestamp)).take evictCount, ¬ q.1 = p.1))
      = (m.mergeSort (fun a b => a.2.timestamp ≤ b.2.timestamp)).drop evictCount := by
    rw [List.filter_eq_self]
    intro q hq
    simp only [decide_eq_true_eq]
    exact hdisj q hq
  have hkept : (evictIfNeeded m).Perm
      ((m.mergeSort (fun a b => a.2.timestamp ≤ b.2.timestamp)).drop evictCount) := by
    rw [hevict]
    have := hmperm.filter
      (fun q => decide (∀ p ∈ (m.mergeSort
        (fun a b => a.2.timestamp ≤ b.2.timestamp)).take evictCount, ¬ q.1 = p.1))
    rw [List.filter_append, hfilterK, hfilterD, List.nil_append] at this
    exact this
  refine ⟨(m.mergeSort (fun a b => a.2.timestamp ≤ b.2.timestamp)).take evictCount,
    (m.mergeSort (fun a b => a.2.timestamp ≤ b.2.timestamp)).drop evictCount,
    hmperm, ?_, hcross, hkept, ?_⟩
  · rw [List.length_take, hsortlen]
    omega
  · rw [hkept.length_eq, List.length_drop, hsortlen]


/-- C8: a `set` at capacity evicts the `evictCount` oldest entries (by
creation timestamp) before inserting; the new key is present afterwards with
the stored value, and the entry count never exceeds the maximum. -/
theorem c8_capacity_eviction {α : Type} (s : CacheState α) (now : Int) (key : String)
    (v : α) (opts : CacheOptions)
    (hnodup : (s.entries.map Prod.fst).Nodup) (hcap : s.entries.length ≤ cacheMaxSize) :
    mapGet (cacheSet s now key v opts).2.entries (cacheFullKey opts.pfx key)
        = some ⟨v, now, opts.ttl.getD cacheDefaultTtl⟩
    ∧ (cacheSet s now key v opts).2.entries.length ≤ cacheMaxSize
    ∧ (cacheSet s now key v opts).1 = true
    ∧ (cacheMaxSize ≤ s.entries.length →
        ∃ removed kept,
          s.entries.Perm (removed ++ kept)
          ∧ removed.length = evictCount
          ∧ (∀ p ∈ removed, ∀ q ∈ kept, p.2.timestamp ≤ q.2.timestamp)
          ∧ (evictIfNeeded s.entries).Perm kept) := by
  have hmax : cacheMaxSize = 10000 := rfl
  have hev : evictCount = 1000 := rfl
  have hentries : (cacheSet s now key v opts).2.entries
      = mapSet (evictIfNeeded s.entries) (cacheFullKey opts.pfx key)
          ⟨v, now, opts.ttl.getD cacheDefaultTtl⟩ := by
    simp [cacheSet]
  refine ⟨?_, ?_, rfl, ?_⟩
  · rw [hentries]
    exact mapGet_mapSet_self _ _ _
  · rw [hentries]
    have h1 := length_mapSet_le (evictIfNeeded s.entries) (cacheFullKey opts.pfx key)
      ⟨v, now, opts.ttl.getD cacheDefaultTtl⟩
    by_cases hfull : cacheMaxSize ≤ s.entries.length
    · obtain ⟨rem, kept, _, _, _, _, hlen⟩ := evict_decomposition s.entries hnodup hfull
      rw [hmax] at hfull hcap ⊢
      rw [hev] at hlen
      omega
    · have heq : evictIfNeeded s.entries = s.entries := by
        unfold evictIfNeeded
        rw [if_neg hfull]
      rw [heq] at h1 ⊢
      rw [hmax] at hfull ⊢
      omega
  · intro hfull
    obtain ⟨rem, kept, a, b, c, d, _⟩ := evict_decomposition s.entries hnodup hfull
    exact ⟨rem, kept, a, b, c, d⟩


/-- A cache at capacity: `cacheMaxSize` entries under pairwise-distinct keys. -/
def fullCacheEntries : List (String × CacheEntry Nat) :=
  (List.range cacheMaxSize).map
    (fun i => (String.mk (List.replicate i 'x'), ⟨i, (i : Int), 0⟩))

theorem fullCacheEntries_nodup : (fullCacheEntries.map Prod.fst).Nodup := by
  unfold fullCacheEntries
  rw [List.map_map]
  apply List.Nodup.map ?_ (List.nodup_range _)
  intro i j hij
  have hd := congrArg String.data hij
  have hl := congrArg List.length hd
  simpa using hl

theorem fullCacheEntries_length : fullCacheEntries.length = cacheMaxSize := by
  unfold fullCacheEntries
  simp

attribute [irreducible] fullCacheEntries

/-- C8 witness: inserting into a cache at its 10000-entry capacity. -/
theorem c8_capacity_eviction_witness :
    mapGet (cacheSet (CacheState.mk fullCacheEntries 0 0) 123 "newkey" 7
        (CacheOptions.mk (some 50) none)).2.entries
        (cacheFullKey (CacheOptions.mk (some 50) none).pfx "newkey")
        = some ⟨7, 123, (CacheOptions.mk (some 50) none).ttl.getD cacheDefaultTtl⟩
    ∧ (cacheSet (CacheState.mk fullCacheEntries 0 0) 123 "newkey" 7
        (CacheOptions.mk (some 50) none)).2.entries.length ≤ cacheMaxSize
    ∧ (cacheSet (CacheState.mk fullCacheEntries 0 0) 123 "newkey" 7
        (CacheOptions.mk (some 50) none)).1 = true
    ∧ (cacheMaxSize ≤ (CacheState.mk fullCacheEntries 0 0).entries.length →
        ∃ removed kept,
          (CacheState.mk fullCacheEntries 0 0).entries.Perm (removed ++ kept)
          ∧ removed.length = evictCount
          ∧ (∀ p ∈ removed, ∀ q ∈ kept, p.2.timestamp ≤ q.2.timestamp)
          ∧ (evictIfNeeded (CacheState.mk fullCacheEntries 0 0).entries).Perm kept) :=
  c8_capacity_eviction (CacheState.mk fullCacheEntries 0 0) 123 "newkey" 7
    (CacheOptions.mk (some 50) none) fullCacheEntries_nodup
    (le_of_eq fullCacheEntries_length)


end Moen
